import Mathlib

/-!
Verification of the `tfpluginschema` plugin-schema retrieval library.

This file shallowly embeds the library's core algorithms in Lean:
the semantic-version resolver (`GetLatestVersionMatch`, `latestVersionOf`),
the type-signature decoder (`decodeCtyTypeFromJSONBytes`), the
generation-specific wire-schema-to-canonical translators
(`convertV6BlockToTFJSON` and friends), the dual-generation universal
provider client (`universalSchema`), and a state-machine model of the
caching `Server` orchestrator.  External collaborators (HTTP registry,
archive extraction, subprocess RPC, the strict `cty` JSON type
decoder of the go-cty library, and the go-version parser) are modelled
as environment parameters, mirroring how the Go code consumes them as
opaque interfaces.  Machine maps keyed by name are modelled as
association lists in iteration order; Go's `*T` nil pointers are
modelled as `Option`.
-/

namespace Tfpluginschema

/-! ## Version resolver (versions.go: `GetLatestVersionMatch`)

`goversion.Version.Compare` is modelled by an abstract comparison
function `cmp : α → α → Int` (negative means less-than), and
`goversion.Constraints` (a nil-able slice of constraints, each offering
`Check`) by `Option (List (α → Bool))`. -/

inductive VersionError where
  | noVersionsProvided
  | versionsNotSorted
  | noMatchingVersion
deriving DecidableEq, Repr

/-- Models `slices.IsSortedFunc(versions, func(a, b) int { return a.Compare(b) })`:
every adjacent pair compares non-positively. -/
def isSortedCmp {α : Type} (cmp : α → α → Int) : List α → Bool
  | [] => true
  | [_] => true
  | a :: b :: rest => decide (cmp a b ≤ 0) && isSortedCmp cmp (b :: rest)

/-- Models `constraints == nil || constraints.Len() == 0`. -/
def constraintsEmpty {α : Type} : Option (List (α → Bool)) → Bool
  | none => true
  | some cs => cs.isEmpty

/-- Models `constraints.Check(v)`: every constraint in the set holds of `v`. -/
def constraintsCheck {α : Type} (cs : Option (List (α → Bool))) (v : α) : Bool :=
  match cs with
  | none => true
  | some cs => cs.all (fun c => c v)

/-- Models the scan loop of `GetLatestVersionMatch`:
`for _, v := range versions { if constraints.Check(v) { lastGood = v } }`. -/
def lastGoodScan {α : Type} (check : α → Bool) : List α → Option α → Option α
  | [], acc => acc
  | v :: rest, acc => lastGoodScan check rest (if check v then some v else acc)

/-- Model of `GetLatestVersionMatch` from versions.go: empty input fails, unsorted
input fails, nil/empty constraints yield the last (greatest) element,
otherwise the last satisfying element of the ascending scan. -/
def GetLatestVersionMatch {α : Type} (cmp : α → α → Int) (versions : List α)
    (constraints : Option (List (α → Bool))) : Except VersionError α :=
  match versions with
  | [] => .error .noVersionsProvided
  | v0 :: rest =>
    if isSortedCmp cmp (v0 :: rest) then
      if constraintsEmpty constraints then
        .ok ((v0 :: rest).getLast (by simp))
      else
        match lastGoodScan (constraintsCheck constraints) (v0 :: rest) none with
        | some lastGood => .ok lastGood
        | none => .error .noMatchingVersion
    else .error .versionsNotSorted

inductive ResolveError where
  | noAvailableVersions
  | resolveFailed (e : VersionError)
deriving DecidableEq, Repr

/-- The core of `Server.latestVersionOf`: given the fetched available
versions and the outcome of `goversion.NewConstraint(request.Version)`
(`none` when the constraint expression failed to parse, in which case
the Go `constraints` variable keeps its nil zero value), resolve the
version. -/
def latestVersionOf {α : Type} (cmp : α → α → Int) (vers : List α)
    (parsedConstraint : Option (List (α → Bool))) : Except ResolveError α :=
  if vers.length == 0 then .error .noAvailableVersions
  else
    match GetLatestVersionMatch cmp vers parsedConstraint with
    | .ok latest => .ok latest
    | .error e => .error (.resolveFailed e)

/-- Concrete comparison on `Nat` used to instantiate witnesses. -/
def natCmp (a b : Nat) : Int := (a : Int) - (b : Int)


/-! ## Type-signature decoder (`decodeCtyTypeFromJSONBytes`)

The input bytes are modelled as `List Nat`.  The strict path
(`ctyjson.UnmarshalType`, from the external go-cty library) and
`json.Unmarshal` (Go standard library) are modelled as environment
functions; the tolerant fallback switch is embedded from the source. -/

/-- A parsed JSON document, the result of `json.Unmarshal` into `any`. -/
inductive Json where
  | null
  | bool (b : Bool)
  | num (n : Int)
  | str (s : String)
  | arr (items : List Json)
  | obj (fields : List (String × Json))

/-- The fragment of `cty.Type` reachable by the decoder. -/
inductive CtyType where
  | string
  | number
  | bool
  | list (elem : CtyType)
  | set (elem : CtyType)
  | map (elem : CtyType)
  | object (attrs : List (String × CtyType))

/-- External collaborators of the decoder: `strict` models
`ctyjson.UnmarshalType` (`none` = error) and `parse` models
`json.Unmarshal` into `any` (`none` = error). -/
structure DecodeEnv where
  strict : List Nat → Option CtyType
  parse : List Nat → Option Json

/-- Model of `primitiveFromString`: maps simple string names to cty primitive types. -/
def primitiveFromString (s : String) : Except String CtyType :=
  match s with
  | "string" => .ok .string
  | "number" => .ok .number
  | "bool" => .ok .bool
  | _ => .error ("unsupported primitive type: " ++ s)

/-- The `case "object"` loop of the tolerant fallback: every attribute
value must be a string naming a primitive; the first non-string value or
unknown primitive aborts with an error. -/
def objectAttrsFromRaw : List (String × Json) → Except String (List (String × CtyType))
  | [] => .ok []
  | (name, t) :: rest =>
    match t with
    | .str s =>
      match primitiveFromString s with
      | .error e => .error e
      | .ok pt =>
        match objectAttrsFromRaw rest with
        | .error e => .error e
        | .ok tail => .ok ((name, pt) :: tail)
    | _ => .error ("invalid object attribute type for " ++ name)

/-- The tolerant-fallback switch of `decodeCtyTypeFromJSONBytes` over the
parsed JSON value: bare primitive strings, and single-key objects
`list`/`set`/`map` (primitive string element) or `object`
(map of primitive strings); anything else is an invalid complex type. -/
def fallbackFromRaw (raw : Json) : Except String CtyType :=
  match raw with
  | .str s => primitiveFromString s
  | .obj fields =>
    match fields with
    | [(k, inner)] =>
      if k == "list" then
        match inner with
        | .str s =>
          match primitiveFromString s with
          | .error e => .error e
          | .ok et => .ok (.list et)
        | _ => .error "invalid complex type description"
      else if k == "set" then
        match inner with
        | .str s =>
          match primitiveFromString s with
          | .error e => .error e
          | .ok et => .ok (.set et)
        | _ => .error "invalid complex type description"
      else if k == "map" then
        match inner with
        | .str s =>
          match primitiveFromString s with
          | .error e => .error e
          | .ok et => .ok (.map et)
        | _ => .error "invalid complex type description"
      else if k == "object" then
        match inner with
        | .obj fs =>
          match objectAttrsFromRaw fs with
          | .error e => .error e
          | .ok attrs => .ok (.object attrs)
        | _ => .error "invalid complex type description"
      else .error "invalid complex type description"
    | _ => .error "invalid complex type description"
  | _ => .error "invalid complex type description"

/-- Model of `decodeCtyTypeFromJSONBytes`: empty input fails; the strict cty/json
decode is tried first; on strict failure the bytes are JSON-parsed and
the tolerant fallback applied. -/
def decodeCtyTypeFromJSONBytes (env : DecodeEnv) (buf : List Nat) : Except String CtyType :=
  if buf.length == 0 then .error "empty type bytes"
  else
    match env.strict buf with
    | some ty => .ok ty
    | none =>
      match env.parse buf with
      | none => .error "json unmarshal error"
      | some raw => fallbackFromRaw raw

/-- Environment whose strict decoder always fails and whose JSON parser
returns the looser historical encoding with a "list" key and "string" element; used by the C7
witness. -/
def decodeEnvListString : DecodeEnv :=
  { strict := fun _ => none
    parse := fun _ => some (.obj [("list", .str "string")]) }


/-! ## Canonical (terraform-json) schema model

`tfjson` structs; maps are association lists in iteration order and Go
nil pointers are `Option`.  `SchemaNestedAttributeType.MinItems/MaxItems`
are never populated by the converters and are omitted. -/

inductive DescriptionKind where
  | plain
  | markdown
deriving DecidableEq, Repr

inductive NestingMode where
  | single
  | group
  | list
  | set
  | map
deriving DecidableEq, Repr

mutual
inductive SchemaAttribute where
  | mk (description : String) (descriptionKind : DescriptionKind)
       (required optional computed sensitive writeOnly deprecated : Bool)
       (attributeType : Option CtyType)
       (attributeNestedType : Option SchemaNestedAttributeType)
inductive SchemaNestedAttributeType where
  | mk (attributes : List (String × SchemaAttribute)) (nestingMode : NestingMode)
end

mutual
inductive SchemaBlock where
  | mk (description : String) (descriptionKind : DescriptionKind) (deprecated : Bool)
       (attributes : List (String × SchemaAttribute))
       (nestedBlocks : List (String × SchemaBlockType))
inductive SchemaBlockType where
  | mk (nestingMode : NestingMode) (block : Option SchemaBlock)
       (minItems maxItems : Int)
end

def SchemaAttribute.attributeType : SchemaAttribute → Option CtyType
  | .mk _ _ _ _ _ _ _ _ t _ => t

def SchemaAttribute.attributeNestedType : SchemaAttribute → Option SchemaNestedAttributeType
  | .mk _ _ _ _ _ _ _ _ _ n => n

def SchemaNestedAttributeType.attributes :
    SchemaNestedAttributeType → List (String × SchemaAttribute)
  | .mk a _ => a

def SchemaNestedAttributeType.nestingMode : SchemaNestedAttributeType → NestingMode
  | .mk _ m => m

def SchemaBlock.attributes : SchemaBlock → List (String × SchemaAttribute)
  | .mk _ _ _ a _ => a

def SchemaBlock.nestedBlocks : SchemaBlock → List (String × SchemaBlockType)
  | .mk _ _ _ _ n => n

def SchemaBlockType.nestingMode : SchemaBlockType → NestingMode
  | .mk m _ _ _ => m

def SchemaBlockType.block : SchemaBlockType → Option SchemaBlock
  | .mk _ b _ _ => b

/-- Model of `tfjson.Schema`. -/
structure Schema where
  version : Int
  block : Option SchemaBlock

structure FunctionParameter where
  name : String
  description : String
  isNullable : Bool
  type : Option CtyType

structure FunctionSignature where
  summary : String
  description : String
  deprecationMessage : String
  parameters : List FunctionParameter
  variadicParameter : Option FunctionParameter
  returnType : Option CtyType

/-- Model of `tfjson.ProviderSchema`: a `none` category is a nil Go map (absent),
distinct from an empty one. -/
structure ProviderSchema where
  configSchema : Option Schema
  resourceSchemas : Option (List (String × Option Schema))
  dataSourceSchemas : Option (List (String × Option Schema))
  ephemeralResourceSchemas : Option (List (String × Option Schema))
  functions : Option (List (String × Option FunctionSignature))

/-! ## Wire schema model, generation B (tfplugin6)

Proto enums are carried as raw `Int` values.  `StringKind`:
PLAIN = 0, MARKDOWN = 1.  `Schema_NestedBlock.NestingMode`:
INVALID = 0, SINGLE = 1, LIST = 2, SET = 3, MAP = 4, GROUP = 5.
`Schema_Object.NestingMode`: INVALID = 0, SINGLE = 1, LIST = 2,
SET = 3, MAP = 4. -/

mutual
inductive V6Attribute where
  | mk (name description : String) (descriptionKind : Int)
       (required optional computed sensitive writeOnly deprecated : Bool)
       (type : List Nat) (nestedType : Option V6Object)
inductive V6Object where
  | mk (attributes : List V6Attribute) (nesting : Int)
end

mutual
inductive V6Block where
  | mk (description : String) (descriptionKind : Int) (deprecated : Bool)
       (attributes : List V6Attribute) (blockTypes : List V6NestedBlock)
inductive V6NestedBlock where
  | mk (typeName : String) (nesting : Int) (block : Option V6Block)
       (minItems maxItems : Int)
end

def V6Attribute.name : V6Attribute → String
  | .mk n _ _ _ _ _ _ _ _ _ _ => n

def V6Attribute.type : V6Attribute → List Nat
  | .mk _ _ _ _ _ _ _ _ _ t _ => t

def V6Attribute.nestedType : V6Attribute → Option V6Object
  | .mk _ _ _ _ _ _ _ _ _ _ nt => nt

def V6Object.attributes : V6Object → List V6Attribute
  | .mk a _ => a

def V6Block.attributes : V6Block → List V6Attribute
  | .mk _ _ _ a _ => a

def V6Block.blockTypes : V6Block → List V6NestedBlock
  | .mk _ _ _ _ b => b

def V6NestedBlock.typeName : V6NestedBlock → String
  | .mk n _ _ _ _ => n

def V6NestedBlock.nesting : V6NestedBlock → Int
  | .mk _ n _ _ _ => n

structure V6Schema where
  version : Int
  block : Option V6Block

structure V6FunctionParameter where
  name : String
  description : String
  allowNullValue : Bool
  type : List Nat

structure V6FunctionReturn where
  type : List Nat

structure V6Function where
  summary : String
  description : String
  deprecationMessage : String
  parameters : List V6FunctionParameter
  variadicParameter : Option V6FunctionParameter
  ret : Option V6FunctionReturn

structure V6Response where
  provider : Option V6Schema
  resourceSchemas : List (String × Option V6Schema)
  dataSourceSchemas : List (String × Option V6Schema)
  ephemeralResourceSchemas : List (String × Option V6Schema)
  functions : List (String × Option V6Function)

/-! ## Wire schema model, generation A (tfplugin5)

Same shapes except attributes carry no nested object type. -/

inductive V5Attribute where
  | mk (name description : String) (descriptionKind : Int)
       (required optional computed sensitive writeOnly deprecated : Bool)
       (type : List Nat)

mutual
inductive V5Block where
  | mk (description : String) (descriptionKind : Int) (deprecated : Bool)
       (attributes : List V5Attribute) (blockTypes : List V5NestedBlock)
inductive V5NestedBlock where
  | mk (typeName : String) (nesting : Int) (block : Option V5Block)
       (minItems maxItems : Int)
end

def V5Attribute.name : V5Attribute → String
  | .mk n _ _ _ _ _ _ _ _ _ => n

def V5Attribute.type : V5Attribute → List Nat
  | .mk _ _ _ _ _ _ _ _ _ t => t

def V5Block.attributes : V5Block → List V5Attribute
  | .mk _ _ _ a _ => a

def V5Block.blockTypes : V5Block → List V5NestedBlock
  | .mk _ _ _ _ b => b

def V5NestedBlock.typeName : V5NestedBlock → String
  | .mk n _ _ _ _ => n

def V5NestedBlock.nesting : V5NestedBlock → Int
  | .mk _ n _ _ _ => n

structure V5Schema where
  version : Int
  block : Option V5Block

structure V5Function where
  summary : String
  description : String
  deprecationMessage : String
  parameters : List V6FunctionParameter
  variadicParameter : Option V6FunctionParameter
  ret : Option V6FunctionReturn

structure V5Response where
  provider : Option V5Schema
  resourceSchemas : List (String × Option V5Schema)
  dataSourceSchemas : List (String × Option V5Schema)
  ephemeralResourceSchemas : List (String × Option V5Schema)
  functions : List (String × Option V5Function)

/-! ## Schema translator -/

/-- The description-kind switch shared by all converters:
MARKDOWN maps to markdown, everything else (including unset) to plain. -/
def descKindOf (k : Int) : DescriptionKind :=
  if k == 1 then .markdown else .plain

/-- The `switch nb.GetNesting()` of `convertV6BlockToTFJSON` (identical in
`convertV5BlockToTFJSON`): named modes map 1:1; default (INVALID, unset or
any unknown value) is single. -/
def blockNestingModeOf (n : Int) : NestingMode :=
  if n == 1 then .single
  else if n == 5 then .group
  else if n == 2 then .list
  else if n == 3 then .set
  else if n == 4 then .map
  else .single

/-- The `switch o.GetNesting()` of `convertV6ObjectToNested`: default
(INVALID, unset or unknown) is single. -/
def objectNestingModeOf (n : Int) : NestingMode :=
  if n == 1 then .single
  else if n == 2 then .list
  else if n == 3 then .set
  else if n == 4 then .map
  else .single

mutual
/-- The per-attribute body of the conversion loops in
`convertV6BlockToTFJSON` / `convertV6ObjectToNested` (identical code in
both): non-empty type bytes are decoded, a decode failure leaves the
type absent; a present nested object type is converted recursively. -/
def convertV6AttributeToTFJSON (env : DecodeEnv) : V6Attribute → SchemaAttribute
  | .mk _ desc dk req opt comp sens wo dep tbytes none =>
    .mk desc (descKindOf dk) req opt comp sens wo dep
      (if tbytes.length > 0 then
        match decodeCtyTypeFromJSONBytes env tbytes with
        | .ok ty => some ty
        | .error _ => none
       else none)
      none
  | .mk _ desc dk req opt comp sens wo dep tbytes (some o) =>
    .mk desc (descKindOf dk) req opt comp sens wo dep
      (if tbytes.length > 0 then
        match decodeCtyTypeFromJSONBytes env tbytes with
        | .ok ty => some ty
        | .error _ => none
       else none)
      (some (convertV6ObjectToNested env o))
termination_by a => sizeOf a
decreasing_by
  simp_wf
  omega
/-- Model of `convertV6ObjectToNested` over a non-nil `Schema_Object`. -/
def convertV6ObjectToNested (env : DecodeEnv) : V6Object → SchemaNestedAttributeType
  | .mk attrs nesting =>
    .mk (attrs.attach.map fun x => (x.1.name, convertV6AttributeToTFJSON env x.1))
        (objectNestingModeOf nesting)
termination_by o => sizeOf o
decreasing_by
  simp_wf
  have := List.sizeOf_lt_of_mem x.2
  omega
end

mutual
/-- Model of `convertV6BlockToTFJSON` (nil block converts to nil) together with
the body of its `for _, nb := range b.GetBlockTypes()` loop. -/
def convertV6BlockToTFJSON (env : DecodeEnv) : Option V6Block → Option SchemaBlock
  | none => none
  | some (.mk desc dk dep attrs bts) =>
    some (.mk desc (descKindOf dk) dep
      (attrs.map fun a => (a.name, convertV6AttributeToTFJSON env a))
      (bts.attach.map fun x => (x.1.typeName, convertV6NestedBlockType env x.1)))
termination_by b => sizeOf b
decreasing_by
  simp_wf
  have := List.sizeOf_lt_of_mem x.2
  omega
/-- The body of the nested-block loop of `convertV6BlockToTFJSON`. -/
def convertV6NestedBlockType (env : DecodeEnv) : V6NestedBlock → SchemaBlockType
  | .mk _ nesting blk mi ma =>
    .mk (blockNestingModeOf nesting) (convertV6BlockToTFJSON env blk) mi ma
termination_by nb => sizeOf nb
decreasing_by
  simp_wf
  omega
end

/-- Model of `convertV5BlockToTFJSON`'s attribute loop body: as in v6 but without
a nested object type (not available in the v5 wire schema). -/
def convertV5AttributeToTFJSON (env : DecodeEnv) : V5Attribute → SchemaAttribute
  | .mk _ desc dk req opt comp sens wo dep tbytes =>
    .mk desc (descKindOf dk) req opt comp sens wo dep
      (if tbytes.length > 0 then
        match decodeCtyTypeFromJSONBytes env tbytes with
        | .ok ty => some ty
        | .error _ => none
       else none)
      none

mutual
/-- Model of `convertV5BlockToTFJSON` and the body of its nested-block loop. -/
def convertV5BlockToTFJSON (env : DecodeEnv) : Option V5Block → Option SchemaBlock
  | none => none
  | some (.mk desc dk dep attrs bts) =>
    some (.mk desc (descKindOf dk) dep
      (attrs.map fun a => (a.name, convertV5AttributeToTFJSON env a))
      (bts.attach.map fun x => (x.1.typeName, convertV5NestedBlockType env x.1)))
termination_by b => sizeOf b
decreasing_by
  simp_wf
  have := List.sizeOf_lt_of_mem x.2
  omega
/-- The body of the nested-block loop of `convertV5BlockToTFJSON`. -/
def convertV5NestedBlockType (env : DecodeEnv) : V5NestedBlock → SchemaBlockType
  | .mk _ nesting blk mi ma =>
    .mk (blockNestingModeOf nesting) (convertV5BlockToTFJSON env blk) mi ma
termination_by nb => sizeOf nb
decreasing_by
  simp_wf
  omega
end


/-! ## Function and response conversion -/

/-- The parameter-loop body of `convertV6FunctionToTFJSON`. -/
def convertV6FunctionParameter (env : DecodeEnv) (p : V6FunctionParameter) :
    FunctionParameter :=
  { name := p.name
    description := p.description
    isNullable := p.allowNullValue
    type :=
      if p.type.length > 0 then
        match decodeCtyTypeFromJSONBytes env p.type with
        | .ok ty => some ty
        | .error _ => none
      else none }

/-- Model of `convertV6FunctionToTFJSON` (nil function converts to nil). -/
def convertV6FunctionToTFJSON (env : DecodeEnv) :
    Option V6Function → Option FunctionSignature
  | none => none
  | some f =>
    some { summary := f.summary
           description := f.description
           deprecationMessage := f.deprecationMessage
           parameters := f.parameters.map (convertV6FunctionParameter env)
           variadicParameter :=
             match f.variadicParameter with
             | none => none
             | some vp => some (convertV6FunctionParameter env vp)
           returnType :=
             match f.ret with
             | none => none
             | some r =>
               if r.type.length > 0 then
                 match decodeCtyTypeFromJSONBytes env r.type with
                 | .ok ty => some ty
                 | .error _ => none
               else none }

/-- Model of `convertV5FunctionToTFJSON` (same algorithm over the v5 proto shape). -/
def convertV5FunctionToTFJSON (env : DecodeEnv) :
    Option V5Function → Option FunctionSignature
  | none => none
  | some f =>
    some { summary := f.summary
           description := f.description
           deprecationMessage := f.deprecationMessage
           parameters := f.parameters.map (convertV6FunctionParameter env)
           variadicParameter :=
             match f.variadicParameter with
             | none => none
             | some vp => some (convertV6FunctionParameter env vp)
           returnType :=
             match f.ret with
             | none => none
             | some r =>
               if r.type.length > 0 then
                 match decodeCtyTypeFromJSONBytes env r.type with
                 | .ok ty => some ty
                 | .error _ => none
               else none }

/-- Model of `convertV6SchemaToTFJSON` (nil schema converts to nil). -/
def convertV6SchemaToTFJSON (env : DecodeEnv) : Option V6Schema → Option Schema
  | none => none
  | some s => some { version := s.version, block := convertV6BlockToTFJSON env s.block }

/-- Model of `convertV5SchemaToTFJSON` (nil schema converts to nil). -/
def convertV5SchemaToTFJSON (env : DecodeEnv) : Option V5Schema → Option Schema
  | none => none
  | some s => some { version := s.version, block := convertV5BlockToTFJSON env s.block }

/-- Model of `convertV6ResponseToTFJSON`: a nil response is an error; otherwise each
category map is converted, empty maps staying nil (absent). -/
def convertV6ResponseToTFJSON (env : DecodeEnv) :
    Option V6Response → Except String ProviderSchema
  | none => .error "nil v6 response"
  | some resp =>
    .ok { configSchema := convertV6SchemaToTFJSON env resp.provider
          resourceSchemas :=
            if resp.resourceSchemas.length > 0 then
              some (resp.resourceSchemas.map fun kv =>
                (kv.1, convertV6SchemaToTFJSON env kv.2))
            else none
          dataSourceSchemas :=
            if resp.dataSourceSchemas.length > 0 then
              some (resp.dataSourceSchemas.map fun kv =>
                (kv.1, convertV6SchemaToTFJSON env kv.2))
            else none
          ephemeralResourceSchemas :=
            if resp.ephemeralResourceSchemas.length > 0 then
              some (resp.ephemeralResourceSchemas.map fun kv =>
                (kv.1, convertV6SchemaToTFJSON env kv.2))
            else none
          functions :=
            if resp.functions.length > 0 then
              some (resp.functions.map fun kv =>
                (kv.1, convertV6FunctionToTFJSON env kv.2))
            else none }

/-- Model of `convertV5ResponseToTFJSON`: as for v6. -/
def convertV5ResponseToTFJSON (env : DecodeEnv) :
    Option V5Response → Except String ProviderSchema
  | none => .error "nil v5 response"
  | some resp =>
    .ok { configSchema := convertV5SchemaToTFJSON env resp.provider
          resourceSchemas :=
            if resp.resourceSchemas.length > 0 then
              some (resp.resourceSchemas.map fun kv =>
                (kv.1, convertV5SchemaToTFJSON env kv.2))
            else none
          dataSourceSchemas :=
            if resp.dataSourceSchemas.length > 0 then
              some (resp.dataSourceSchemas.map fun kv =>
                (kv.1, convertV5SchemaToTFJSON env kv.2))
            else none
          ephemeralResourceSchemas :=
            if resp.ephemeralResourceSchemas.length > 0 then
              some (resp.ephemeralResourceSchemas.map fun kv =>
                (kv.1, convertV5SchemaToTFJSON env kv.2))
            else none
          functions :=
            if resp.functions.length > 0 then
              some (resp.functions.map fun kv =>
                (kv.1, convertV5FunctionToTFJSON env kv.2))
            else none }

/-! ## Universal provider client

`universalProviderClient` holds at most one client per generation;
each generation field is `none` when that protocol client is absent
(Go nil), and otherwise carries the outcome of the single RPC made by
`schema()` (`v6Schema()` / `v5Schema()`): an error string or the
(possibly nil) wire response. -/

structure UniversalProviderClient where
  v5 : Option (Except String (Option V5Response))
  v6 : Option (Except String (Option V6Response))

/-- Model of `universalProviderClient.schema()`: prefer generation B (v6); on RPC
failure fall back to generation A (v5); a conversion failure after a
successful RPC is returned directly; if neither generation yields a
schema, a fixed combined error message is returned. -/
def UniversalProviderClient.schema (env : DecodeEnv) (c : UniversalProviderClient) :
    Except String ProviderSchema :=
  match c.v6 with
  | some (.ok resp) =>
    match convertV6ResponseToTFJSON env resp with
    | .ok ps => .ok ps
    | .error e => .error ("failed to convert v6 response: " ++ e)
  | _ =>
    match c.v5 with
    | some (.ok resp) =>
      match convertV5ResponseToTFJSON env resp with
      | .ok ps => .ok ps
      | .error e => .error ("failed to convert v5 response: " ++ e)
    | _ => .error "failed to get provider schema for either V5 or V6 protocols"

/-- Does `s` contain `sub` starting at its head? -/
def charsHavePre : List Char → List Char → Bool
  | [], _ => true
  | _ :: _, [] => false
  | a :: as, b :: bs => a == b && charsHavePre as bs

/-- Does the character list contain `sub` as a contiguous run? -/
def charsHaveSub (sub : List Char) : List Char → Bool
  | [] => charsHavePre sub []
  | b :: bs => charsHavePre sub (b :: bs) || charsHaveSub sub bs

/-- Does string `s` mention `sub` as a substring? -/
def strMentions (s sub : String) : Bool := charsHaveSub sub.toList s.toList

/-- A client whose v6 and v5 RPCs both fail, with distinct diagnostics. -/
def clientBothFail : UniversalProviderClient :=
  { v5 := some (.error "v5 rpc failure"), v6 := some (.error "v6 rpc failure") }

/-- A non-nil v5 wire response with every category empty. -/
def emptyV5Response : V5Response :=
  { provider := none, resourceSchemas := [], dataSourceSchemas := []
    ephemeralResourceSchemas := [], functions := [] }

/-- A client whose v6 RPC fails and whose v5 RPC succeeds. -/
def clientFallback : UniversalProviderClient :=
  { v5 := some (.ok (some emptyV5Response)), v6 := some (.error "v6 rpc failure") }

/-- Decode environment where both the strict decoder and the JSON parser
fail, so `decodeCtyTypeFromJSONBytes` always fails; used by the C8 witness. -/
def decodeEnvFailAll : DecodeEnv :=
  { strict := fun _ => none, parse := fun _ => none }

/-- Concrete v6 attribute with non-empty, undecodable type bytes. -/
def v6AttrBadType : V6Attribute :=
  .mk "bad_typed" "" 0 true false false false false false [9] none

/-- Concrete v6 nested block whose nesting enum carries the INVALID value 0. -/
def v6NestedInvalid : V6NestedBlock := .mk "inv" 0 none 0 0


/-! ## Cache orchestrator model (server.go)

The `Server` caches are association lists (newest entry first, as Go map
writes overwrite).  External collaborators -- the go-version parser, the
registry HTTP endpoints, the download/extract/locate pipeline of the
write-locked section of `Get`, and the gRPC client pipeline of
`getSchema` -- are environment functions.  Operations return their Go
result together with the (always surviving) mutated server state. -/

/-- Model of `Request` (the `Namespace` field is spelled `nspace`; `namespace` is a
Lean keyword). -/
structure SRequest where
  nspace : String
  name : String
  version : String
deriving DecidableEq, Repr

structure SVersionsRequest where
  nspace : String
  name : String
deriving DecidableEq, Repr

/-- Go map read (`m[k]`): first entry with the matching key. -/
def lookupA {κ β : Type} [DecidableEq κ] : List (κ × β) → κ → Option β
  | [], _ => none
  | (k, v) :: rest, key => if key = k then some v else lookupA rest key

structure ServerState where
  dlc : List (SRequest × String)
  sc : List (SRequest × ProviderSchema)
  versionsc : List (SVersionsRequest × List String)

def initialServerState : ServerState := ⟨[], [], []⟩

/-- External collaborators of the orchestrator.
`parsesAsVersion` models `goversion.NewVersion` succeeding;
`cmp` models `Version.Compare` on parsed version strings;
`registryVersions` models the versions HTTP API (`none` = request or
decode failure; the strings are the body's version list);
`parseConstraint` models `goversion.NewConstraint`;
`download` models the write-locked section of `Get` (registry download
API + HTTP download + unzip + walk), yielding the located provider path;
`fetchSchema` models `newGrpcClient` + `client.schema()` on that path
(`none` = any failure or nil schema). -/
structure ServerEnv where
  parsesAsVersion : String → Bool
  cmp : String → String → Int
  registryVersions : SVersionsRequest → Option (List String)
  parseConstraint : String → Option (List (String → Bool))
  download : SRequest → Option String
  fetchSchema : String → Option ProviderSchema

inductive ServerError where
  | versionsFetchFailed
  | versionParseFailed
  | resolve (e : ResolveError)
  | downloadFailed
  | providerNotInCache
  | schemaFetchFailed
  | nilSchemaDereference
deriving DecidableEq, Repr

/-- Model of `Server.GetAvailableVersions`: cache hit, else fetch the version
strings, parse every one (first parse failure is an error), sort
ascending by `Compare`, cache and return. -/
def GetAvailableVersions (env : ServerEnv) (s : ServerState) (req : SVersionsRequest) :
    Except ServerError (List String) × ServerState :=
  match lookupA s.versionsc req with
  | some v => (.ok v, s)
  | none =>
    match env.registryVersions req with
    | none => (.error .versionsFetchFailed, s)
    | some raw =>
      if raw.all env.parsesAsVersion then
        let sorted := raw.mergeSort (fun a b => decide (env.cmp a b ≤ 0))
        (.ok sorted, { s with versionsc := (req, sorted) :: s.versionsc })
      else (.error .versionParseFailed, s)

/-- Model of `Server.latestVersionOf`: fetch available versions, then resolve via
`latestVersionOf` (§ version resolver); a constraint that fails to parse
leaves the constraints nil. -/
def serverLatestVersionOf (env : ServerEnv) (s : ServerState) (r : SRequest) :
    Except ServerError String × ServerState :=
  match GetAvailableVersions env s ⟨r.nspace, r.name⟩ with
  | (.error e, s1) => (.error e, s1)
  | (.ok vers, s1) =>
    match latestVersionOf env.cmp vers (env.parseConstraint r.version) with
    | .ok latest => (.ok latest, s1)
    | .error e => (.error (.resolve e), s1)

/-- Model of `Request.fixedVersion`: does the version field parse as an exact
version? -/
def fixedVersion (env : ServerEnv) (r : SRequest) : Bool :=
  env.parsesAsVersion r.version

/-- Model of `Request.fixVersion`: an exact version is kept; otherwise the request
is resolved to the latest matching version. -/
def fixVersion (env : ServerEnv) (s : ServerState) (r : SRequest) :
    Except ServerError SRequest × ServerState :=
  if fixedVersion env r then (.ok r, s)
  else
    match serverLatestVersionOf env s r with
    | (.ok ver, s1) => (.ok { r with version := ver }, s1)
    | (.error e, s1) => (.error e, s1)

/-- Model of `Server.Get` (sequential view): the initial read-locked download-cache
check uses the caller's (possibly unresolved) request; on a miss the
version is fixed and the write-locked download section runs, recording
the located provider path under the resolved request. -/
def serverGet (env : ServerEnv) (s : ServerState) (request : SRequest) :
    Except ServerError Unit × ServerState :=
  match lookupA s.dlc request with
  | some _ => (.ok (), s)
  | none =>
    match fixVersion env s request with
    | (.error e, s1) => (.error e, s1)
    | (.ok request1, s1) =>
      match env.download request1 with
      | none => (.error .downloadFailed, s1)
      | some path => (.ok (), { s1 with dlc := (request1, path) :: s1.dlc })

/-- Model of `Server.getSchema`: schema-cache check with the caller's request; on a
miss fix the version, ensure the download, read the provider path from
the download cache, fetch + convert the schema, and cache it under the
resolved request. -/
def getSchema (env : ServerEnv) (s : ServerState) (request : SRequest) :
    Except ServerError ProviderSchema × ServerState :=
  match lookupA s.sc request with
  | some resp => (.ok resp, s)
  | none =>
    match fixVersion env s request with
    | (.error e, s1) => (.error e, s1)
    | (.ok request1, s1) =>
      match serverGet env s1 request1 with
      | (.error e, s2) => (.error e, s2)
      | (.ok _, s2) =>
        match lookupA s2.dlc request1 with
        | none => (.error .providerNotInCache, s2)
        | some path =>
          match env.fetchSchema path with
          | none => (.error .schemaFetchFailed, s2)
          | some ps => (.ok ps, { s2 with sc := (request1, ps) :: s2.sc })

/-- The category-specific tail of each `ListXxx` accessor: a nil category
map yields `nil, nil`; otherwise the key set is collected and sorted
ascending (`slices.Sort`). -/
def listNamesOf {β : Type} (proj : ProviderSchema → Option (List (String × β)))
    (schemaResp : ProviderSchema) : Except ServerError (Option (List String)) :=
  match proj schemaResp with
  | none => .ok none
  | some m => .ok (some ((m.map Prod.fst).mergeSort (fun a b => decide (a ≤ b))))

/-- The shared shape of `ListResources` / `ListDataSources` /
`ListFunctions` / `ListEphemeralResources`: read-locked schema-cache
check with the caller's request; on a miss call `getSchema` and then
re-read the cache **with the original request** -- when that re-read
misses, the Go code dereferences the nil `schemaResp` pointer
(a runtime panic, modelled as `nilSchemaDereference`). -/
def listCategory {β : Type} (proj : ProviderSchema → Option (List (String × β)))
    (env : ServerEnv) (s : ServerState) (request : SRequest) :
    Except ServerError (Option (List String)) × ServerState :=
  match lookupA s.sc request with
  | some schemaResp => (listNamesOf proj schemaResp, s)
  | none =>
    match getSchema env s request with
    | (.error e, s1) => (.error e, s1)
    | (.ok _, s1) =>
      match lookupA s1.sc request with
      | none => (.error .nilSchemaDereference, s1)
      | some schemaResp => (listNamesOf proj schemaResp, s1)

def ListResources (env : ServerEnv) (s : ServerState) (r : SRequest) :
    Except ServerError (Option (List String)) × ServerState :=
  listCategory (fun ps => ps.resourceSchemas) env s r

def ListDataSources (env : ServerEnv) (s : ServerState) (r : SRequest) :
    Except ServerError (Option (List String)) × ServerState :=
  listCategory (fun ps => ps.dataSourceSchemas) env s r

def ListFunctions (env : ServerEnv) (s : ServerState) (r : SRequest) :
    Except ServerError (Option (List String)) × ServerState :=
  listCategory (fun ps => ps.functions) env s r

def ListEphemeralResources (env : ServerEnv) (s : ServerState) (r : SRequest) :
    Except ServerError (Option (List String)) × ServerState :=
  listCategory (fun ps => ps.ephemeralResourceSchemas) env s r

/-- The public operations of the orchestrator, for reachability
statements. -/
inductive ServerOp where
  | get (r : SRequest)
  | schemaOp (r : SRequest)
  | versionsOp (q : SVersionsRequest)
  | listResourcesOp (r : SRequest)
  | listDataSourcesOp (r : SRequest)
  | listFunctionsOp (r : SRequest)
  | listEphemeralResourcesOp (r : SRequest)

def applyOp (env : ServerEnv) (s : ServerState) : ServerOp → ServerState
  | .get r => (serverGet env s r).2
  | .schemaOp r => (getSchema env s r).2
  | .versionsOp q => (GetAvailableVersions env s q).2
  | .listResourcesOp r => (ListResources env s r).2
  | .listDataSourcesOp r => (ListDataSources env s r).2
  | .listFunctionsOp r => (ListFunctions env s r).2
  | .listEphemeralResourcesOp r => (ListEphemeralResources env s r).2

def runOps (env : ServerEnv) (s : ServerState) : List ServerOp → ServerState
  | [] => s
  | op :: rest => runOps env (applyOp env s op) rest

/-! ## Concrete orchestrator scenario (C10) -/

/-- Canonical schema with one resource category entry. -/
def psC10 : ProviderSchema :=
  { configSchema := none
    resourceSchemas := some [("res_a", none)]
    dataSourceSchemas := none
    ephemeralResourceSchemas := none
    functions := some [("fn_b", none), ("fn_a", none)] }

/-- Environment where only "1.0.0" parses as a version, the registry
offers exactly that version, the constraint parser always fails (as
`NewConstraint("")` does for the empty version), download and schema
fetch succeed. -/
def envC10 : ServerEnv :=
  { parsesAsVersion := fun v => v == "1.0.0"
    cmp := fun _ _ => 0
    registryVersions := fun _ => some ["1.0.0"]
    parseConstraint := fun _ => none
    download := fun _ => some "/tmp/provider-path"
    fetchSchema := fun _ => some psC10 }

/-- A request with an empty (unresolved) version field. -/
def reqEmptyVersion : SRequest := ⟨"ns", "prov", ""⟩

/-- The same request resolved to the exact version. -/
def reqFixed : SRequest := ⟨"ns", "prov", "1.0.0"⟩

/-- Server state whose versions cache is pre-seeded (as the repository's
own tests do) so the scenario avoids the registry. -/
def stateSeeded : ServerState :=
  { dlc := [], sc := [(reqFixed, psC10)]
    versionsc := [(⟨"ns", "prov"⟩, ["1.0.0"])] }

/-- As `stateSeeded` but without the schema cache entry. -/
def stateVersionsOnly : ServerState :=
  { dlc := [], sc := [], versionsc := [(⟨"ns", "prov"⟩, ["1.0.0"])] }

/-! ## Concurrency model of `Server.Get` (C2)

Two caller threads run `Get` for the same already-exact-version request.
Each thread takes the atomic steps of the Go code in order: the
read-locked download-cache check, write-lock acquisition, the download
(registry call + fetch + extract + walk, performed unconditionally --
the code does not re-check the cache after acquiring the write lock),
and the cache insert + unlock. -/

inductive GetPC where
  | start
  | wantLock
  | inCrit
  | downloaded
  | done
deriving DecidableEq, Repr

structure ConcState where
  writer : Option Bool
  dlcHas : Bool
  downloads : Nat
  pc0 : GetPC
  pc1 : GetPC
deriving DecidableEq, Repr

def pcOf (s : ConcState) (t : Bool) : GetPC := if t then s.pc1 else s.pc0

def setPc (s : ConcState) (t : Bool) (p : GetPC) : ConcState :=
  if t then { s with pc1 := p } else { s with pc0 := p }

/-- One atomic step of thread `t` running `Server.Get`; a blocked or
finished thread is unchanged. -/
def getStep (s : ConcState) (t : Bool) : ConcState :=
  match pcOf s t with
  | .start =>
    if s.writer.isSome then s
    else if s.dlcHas then setPc s t .done
    else setPc s t .wantLock
  | .wantLock =>
    if s.writer.isSome then s
    else setPc { s with writer := some t } t .inCrit
  | .inCrit => setPc { s with downloads := s.downloads + 1 } t .downloaded
  | .downloaded => setPc { s with dlcHas := true, writer := none } t .done
  | .done => s

def runSchedule (s : ConcState) : List Bool → ConcState
  | [] => s
  | t :: rest => runSchedule (getStep s t) rest

def concInit : ConcState :=
  { writer := none, dlcHas := false, downloads := 0, pc0 := .start, pc1 := .start }


/-- Cache-key invariant: every download-cache and schema-cache key
carries a version string that parses as an exact version, and every
cached available-versions list consists of parseable version strings. -/
def CacheInv (env : ServerEnv) (s : ServerState) : Prop :=
  (∀ kv ∈ s.dlc, env.parsesAsVersion kv.1.version = true) ∧
  (∀ kv ∈ s.sc, env.parsesAsVersion kv.1.version = true) ∧
  (∀ kv ∈ s.versionsc, ∀ v ∈ kv.2, env.parsesAsVersion v = true)

/-! ### Resolver lemmas -/

theorem isSortedCmp_iff {α : Type} {cmp : α → α → Int} :
    ∀ {l : List α}, isSortedCmp cmp l = true ↔ List.Chain' (fun a b => cmp a b ≤ 0) l
  | [] => by simp [isSortedCmp]
  | [a] => by simp [isSortedCmp]
  | a :: b :: l => by
    simp [isSortedCmp, List.chain'_cons, isSortedCmp_iff (l := b :: l)]

theorem sorted_pairwise {α : Type} {cmp : α → α → Int}
    (htrans : ∀ a b c, cmp a b ≤ 0 → cmp b c ≤ 0 → cmp a c ≤ 0)
    {l : List α} (hs : isSortedCmp cmp l = true) :
    List.Pairwise (fun a b => cmp a b ≤ 0) l := by
  haveI : IsTrans α (fun a b => cmp a b ≤ 0) := ⟨htrans⟩
  exact List.chain'_iff_pairwise.mp (isSortedCmp_iff.mp hs)

theorem getLast?_cons_or {α : Type} (a : α) (l : List α) :
    (a :: l).getLast? = (l.getLast?).or (some a) := by
  cases l with
  | nil => rfl
  | cons b t =>
    rw [List.getLast?_cons_cons]
    rcases h : (b :: t).getLast? with _ | c
    · simp at h
    · rfl

theorem lastGoodScan_eq {α : Type} (check : α → Bool) :
    ∀ (l : List α) (acc : Option α),
      lastGoodScan check l acc = ((l.filter check).getLast?).or acc
  | [], acc => by simp [lastGoodScan, Option.or]
  | v :: rest, acc => by
    rw [lastGoodScan, lastGoodScan_eq check rest]
    by_cases hv : check v
    · rw [if_pos hv, List.filter_cons_of_pos hv, getLast?_cons_or]
      rcases h : ((rest.filter check).getLast?) with _ | c <;> simp [Option.or]
    · rw [if_neg hv, List.filter_cons_of_neg hv]

theorem pairwise_last_rel {α : Type} {R : α → α → Prop} {l : List α} {v : α}
    (hp : List.Pairwise R l) (hl : l.getLast? = some v) :
    ∀ w ∈ l, w = v ∨ R w v := by
  obtain ⟨ys, rfl⟩ := List.getLast?_eq_some_iff.mp hl
  intro w hw
  rcases List.mem_append.mp hw with h | h
  · exact Or.inr ((List.pairwise_append.mp hp).2.2 w h v (by simp))
  · exact Or.inl (by simpa using h)

theorem constraintsCheck_of_empty {α : Type} {cs : Option (List (α → Bool))}
    (h : constraintsEmpty cs = true) (v : α) : constraintsCheck cs v = true := by
  cases cs with
  | none => rfl
  | some l =>
    cases l with
    | nil => rfl
    | cons c t => simp [constraintsEmpty] at h

theorem cmp_self_eq_zero {α : Type} {cmp : α → α → Int}
    (hasym : ∀ a b, cmp a b = -(cmp b a)) (a : α) : cmp a a = 0 := by
  have := hasym a a
  omega

/-! ### C1, C4, C5 theorems -/

/-- C1. For every non-empty ascending version list `versions` and every
constraint set (possibly nil or empty), if `GetLatestVersionMatch` succeeds
with `v`, then `v` is an element of the list, `v` satisfies the constraints
(vacuously when they are nil/empty, in which case `v` is the last = maximum
element), and no element of the list greater than `v` satisfies the
constraints.  The hypotheses `hasym`/`htrans` axiomatise
`goversion.Version.Compare` being a linear comparison. -/
theorem GetLatestVersionMatch_ok_spec {α : Type} {cmp : α → α → Int}
    (hasym : ∀ a b, cmp a b = -(cmp b a))
    (htrans : ∀ a b c, cmp a b ≤ 0 → cmp b c ≤ 0 → cmp a c ≤ 0)
    (versions : List α) (constraints : Option (List (α → Bool))) (v : α)
    (h : GetLatestVersionMatch cmp versions constraints = .ok v) :
    v ∈ versions ∧ constraintsCheck constraints v = true ∧
      (constraintsEmpty constraints = true → versions.getLast? = some v) ∧
      (∀ w ∈ versions, cmp v w < 0 → constraintsCheck constraints w = false) := by
  cases versions with
  | nil => simp [GetLatestVersionMatch] at h
  | cons v0 rest =>
    rw [GetLatestVersionMatch] at h
    by_cases hs : isSortedCmp cmp (v0 :: rest) = true
    · rw [if_pos hs] at h
      have hpair : List.Pairwise (fun a b => cmp a b ≤ 0) (v0 :: rest) :=
        sorted_pairwise htrans hs
      by_cases he : constraintsEmpty constraints = true
      · rw [if_pos he] at h
        have hv : (v0 :: rest).getLast (by simp) = v := by
          simpa using h
        have hlast : (v0 :: rest).getLast? = some v := by
          rw [List.getLast?_eq_getLast _ (by simp), hv]
        refine ⟨?_, constraintsCheck_of_empty he v, fun _ => hlast, ?_⟩
        · exact List.mem_of_getLast?_eq_some hlast
        · intro w hw hlt
          rcases pairwise_last_rel hpair hlast w hw with rfl | hle
          · have := cmp_self_eq_zero hasym w
            omega
          · have := hasym v w
            omega
      · rw [if_neg he] at h
        rcases hscan : lastGoodScan (constraintsCheck constraints) (v0 :: rest) none
          with _ | lg
        · rw [hscan] at h; cases h
        · rw [hscan] at h
          have hvlg : lg = v := by simpa using h
          subst hvlg
          have hfilter : (((v0 :: rest).filter (constraintsCheck constraints)).getLast?).or
              none = some lg := by
            rw [← lastGoodScan_eq]; exact hscan
          have hfl : ((v0 :: rest).filter (constraintsCheck constraints)).getLast? =
              some lg := by
            rcases hx : ((v0 :: rest).filter (constraintsCheck constraints)).getLast?
              with _ | c
            · rw [hx] at hfilter; simp [Option.or] at hfilter
            · rw [hx] at hfilter; simpa [Option.or] using hfilter
          have hmemf : lg ∈ (v0 :: rest).filter (constraintsCheck constraints) :=
            List.mem_of_getLast?_eq_some hfl
          have hmem : lg ∈ v0 :: rest := (List.mem_filter.mp hmemf).1
          have hcheck : constraintsCheck constraints lg = true :=
            (List.mem_filter.mp hmemf).2
          refine ⟨hmem, hcheck, fun hemp => absurd hemp he, ?_⟩
          intro w hw hlt
          by_contra hcw
          have hcw' : constraintsCheck constraints w = true := by
            cases hcw'' : constraintsCheck constraints w
            · exact absurd hcw'' hcw
            · rfl
          have hwmemf : w ∈ (v0 :: rest).filter (constraintsCheck constraints) :=
            List.mem_filter.mpr ⟨hw, hcw'⟩
          have hpf : List.Pairwise (fun a b => cmp a b ≤ 0)
              ((v0 :: rest).filter (constraintsCheck constraints)) :=
            List.Pairwise.filter _ hpair
          rcases pairwise_last_rel hpf hfl w hwmemf with rfl | hle
          · have := cmp_self_eq_zero hasym w
            omega
          · have := hasym lg w
            omega
    · rw [if_neg hs] at h; cases h

/-- Witness for C1 at a concrete input: versions `[1, 2, 3]` with no
constraints resolve to `3`, which is a member, maximal, and unbeaten. -/
theorem GetLatestVersionMatch_ok_spec_witness :
    3 ∈ [1, 2, 3] ∧ constraintsCheck (α := Nat) none 3 = true ∧
      (constraintsEmpty (α := Nat) none = true → [1, 2, 3].getLast? = some 3) ∧
      (∀ w ∈ [1, 2, 3], natCmp 3 w < 0 → constraintsCheck none w = false) :=
  GetLatestVersionMatch_ok_spec
    (fun a b => by simp only [natCmp]; omega)
    (fun a b c h1 h2 => by simp only [natCmp] at *; omega)
    [1, 2, 3] none 3 rfl

/-- C4. `GetLatestVersionMatch` rejects its precondition violations:
a list that is not in ascending order yields the `versionsNotSorted`
error for every constraint set (it is never silently re-sorted), and the
empty list always yields the `noVersionsProvided` error. -/
theorem GetLatestVersionMatch_precondition {α : Type} (cmp : α → α → Int) :
    (∀ (versions : List α) (constraints : Option (List (α → Bool))),
        isSortedCmp cmp versions = false →
        GetLatestVersionMatch cmp versions constraints = .error .versionsNotSorted) ∧
    (∀ constraints : Option (List (α → Bool)),
        GetLatestVersionMatch cmp ([] : List α) constraints =
          .error .noVersionsProvided) := by
  constructor
  · intro versions constraints hbad
    cases versions with
    | nil => simp [isSortedCmp] at hbad
    | cons v0 rest =>
      rw [GetLatestVersionMatch, if_neg (by simp [hbad])]
  · intro constraints
    rfl

/-- Witness for C4: the unsorted list `[2, 1]` fails with the
not-sorted error, and the empty list fails with the no-versions error. -/
theorem GetLatestVersionMatch_precondition_witness :
    GetLatestVersionMatch natCmp [2, 1] none = .error .versionsNotSorted ∧
      GetLatestVersionMatch natCmp ([] : List Nat) none =
        .error .noVersionsProvided :=
  ⟨(GetLatestVersionMatch_precondition natCmp).1 [2, 1] none (by decide),
   (GetLatestVersionMatch_precondition natCmp).2 none⟩

/-- C5. In `Server.latestVersionOf`, a malformed constraint expression
(`goversion.NewConstraint` fails, so the Go `constraints` variable stays
nil, modelled by passing `none`) is treated as no constraint: resolution
succeeds with the latest (last) available version rather than
propagating a parse error. -/
theorem latestVersionOf_malformed_constraint {α : Type} (cmp : α → α → Int)
    (vers : List α) (hne : vers ≠ []) (hs : isSortedCmp cmp vers = true) :
    latestVersionOf cmp vers none = .ok (vers.getLast hne) := by
  cases vers with
  | nil => exact absurd rfl hne
  | cons v0 rest =>
    rw [latestVersionOf, if_neg (by simp), GetLatestVersionMatch, if_pos hs]
    simp [constraintsEmpty]

/-- Witness for C5: the unparseable constraint (modelled as `none`) over
versions `[1, 2]` resolves to the latest version `2`. -/
theorem latestVersionOf_malformed_constraint_witness :
    latestVersionOf natCmp [1, 2] none = .ok 2 := by
  have h := latestVersionOf_malformed_constraint natCmp [1, 2] (by decide) (by decide)
  simpa using h


/-- C7. When strict decoding fails, the tolerant fallback maps the
single-key object encodings to container types with primitive leaves:
`list`/`set`/`map` of a primitive string element and `object` of a map of
primitive strings (in particular the spec examples resolve to
list(primitive string) and object(a : primitive number)); any
non-primitive inner value in those shapes fails. -/
theorem decodeCtyType_tolerant_fallback (env : DecodeEnv) (buf : List Nat)
    (hne : buf ≠ []) (hstrict : env.strict buf = none) :
    (env.parse buf = some (.obj [("list", .str "string")]) →
      decodeCtyTypeFromJSONBytes env buf = .ok (.list .string)) ∧
    (env.parse buf = some (.obj [("object", .obj [("a", .str "number")])]) →
      decodeCtyTypeFromJSONBytes env buf = .ok (.object [("a", .number)])) ∧
    (∀ s t, primitiveFromString s = .ok t →
      (env.parse buf = some (.obj [("list", .str s)]) →
        decodeCtyTypeFromJSONBytes env buf = .ok (.list t)) ∧
      (env.parse buf = some (.obj [("set", .str s)]) →
        decodeCtyTypeFromJSONBytes env buf = .ok (.set t)) ∧
      (env.parse buf = some (.obj [("map", .str s)]) →
        decodeCtyTypeFromJSONBytes env buf = .ok (.map t))) ∧
    (∀ s e, primitiveFromString s = .error e →
      env.parse buf = some (.obj [("list", .str s)]) →
      decodeCtyTypeFromJSONBytes env buf = .error e) ∧
    (∀ k inner, (k = "list" ∨ k = "set" ∨ k = "map") →
      (∀ s, inner ≠ .str s) →
      env.parse buf = some (.obj [(k, inner)]) →
      decodeCtyTypeFromJSONBytes env buf =
        .error "invalid complex type description") ∧
    (∀ a inner, (∀ s, inner ≠ .str s) →
      env.parse buf = some (.obj [("object", .obj [(a, inner)])]) →
      decodeCtyTypeFromJSONBytes env buf =
        .error ("invalid object attribute type for " ++ a)) := by
  have hlen : (buf.length == 0) = false := by
    simp [List.length_eq_zero, hne]
  refine ⟨?_, ?_, ?_, ?_, ?_, ?_⟩
  · intro hp
    simp [decodeCtyTypeFromJSONBytes, hlen, hstrict, hp, fallbackFromRaw,
      primitiveFromString]
  · intro hp
    simp [decodeCtyTypeFromJSONBytes, hlen, hstrict, hp, fallbackFromRaw,
      objectAttrsFromRaw, primitiveFromString]
  · intro s t hst
    refine ⟨?_, ?_, ?_⟩ <;> intro hp <;>
      simp [decodeCtyTypeFromJSONBytes, hlen, hstrict, hp, fallbackFromRaw, hst]
  · intro s e hse hp
    simp [decodeCtyTypeFromJSONBytes, hlen, hstrict, hp, fallbackFromRaw, hse]
  · intro k inner hk hinner hp
    have hmatch : (match inner with
        | .str s =>
          match primitiveFromString s with
          | .error e => Except.error e
          | .ok et => Except.ok (CtyType.list et)
        | _ => Except.error "invalid complex type description") =
        (Except.error "invalid complex type description" : Except String CtyType) := by
      cases inner <;> first | rfl | exact absurd rfl (hinner _)
    rcases hk with rfl | rfl | rfl <;>
      cases inner <;>
      first
        | exact absurd rfl (hinner _)
        | simp [decodeCtyTypeFromJSONBytes, hlen, hstrict, hp, fallbackFromRaw]
  · intro a inner hinner hp
    cases inner <;>
      first
        | exact absurd rfl (hinner _)
        | simp [decodeCtyTypeFromJSONBytes, hlen, hstrict, hp, fallbackFromRaw,
            objectAttrsFromRaw]

/-- Witness for C7: with a failing strict decoder and a parsed value
carrying a single "list" key with "string" element, the decoder returns
list(primitive string). -/
theorem decodeCtyType_tolerant_fallback_witness :
    decodeCtyTypeFromJSONBytes decodeEnvListString [49] = .ok (.list .string) :=
  (decodeCtyType_tolerant_fallback decodeEnvListString [49] (by decide) rfl).1 rfl


/-- C6. In either generation, a wire nested block whose nesting mode is
unrecognized, invalid or unset (any enum value outside
SINGLE/LIST/SET/MAP/GROUP = 1/2/3/4/5) translates to nesting mode single,
and the conversion never errors or aborts the enclosing tree: every nested
block of a block appears, converted, in the converted block. -/
theorem convertBlock_invalid_nesting_defaults_single (env : DecodeEnv) :
    (∀ nb : V6NestedBlock, nb.nesting ∉ ([1, 2, 3, 4, 5] : List Int) →
      (convertV6NestedBlockType env nb).nestingMode = .single) ∧
    (∀ b : V6Block, ∀ nb ∈ b.blockTypes,
      ∃ sb, convertV6BlockToTFJSON env (some b) = some sb ∧
        (nb.typeName, convertV6NestedBlockType env nb) ∈ sb.nestedBlocks) ∧
    (∀ nb : V5NestedBlock, nb.nesting ∉ ([1, 2, 3, 4, 5] : List Int) →
      (convertV5NestedBlockType env nb).nestingMode = .single) ∧
    (∀ b : V5Block, ∀ nb ∈ b.blockTypes,
      ∃ sb, convertV5BlockToTFJSON env (some b) = some sb ∧
        (nb.typeName, convertV5NestedBlockType env nb) ∈ sb.nestedBlocks) := by
  refine ⟨?_, ?_, ?_, ?_⟩
  · rintro ⟨tn, n, blk, mi, ma⟩ h
    simp only [List.mem_cons, List.mem_singleton, not_or, V6NestedBlock.nesting] at h
    simp [convertV6NestedBlockType, blockNestingModeOf, SchemaBlockType.nestingMode,
      h.1, h.2.1, h.2.2.1, h.2.2.2.1, h.2.2.2.2]
  · rintro ⟨desc, dk, dep, attrs, bts⟩ nb hmem
    have hconv : convertV6BlockToTFJSON env (some (V6Block.mk desc dk dep attrs bts)) =
        some (SchemaBlock.mk desc (descKindOf dk) dep
          (attrs.map fun a => (a.name, convertV6AttributeToTFJSON env a))
          (bts.map fun x => (x.typeName, convertV6NestedBlockType env x))) := by
      simp [convertV6BlockToTFJSON]
    refine ⟨_, hconv, ?_⟩
    simp only [SchemaBlock.nestedBlocks]
    exact List.mem_map.mpr ⟨nb, by simpa [V6Block.blockTypes] using hmem, rfl⟩
  · rintro ⟨tn, n, blk, mi, ma⟩ h
    simp only [List.mem_cons, List.mem_singleton, not_or, V5NestedBlock.nesting] at h
    simp [convertV5NestedBlockType, blockNestingModeOf, SchemaBlockType.nestingMode,
      h.1, h.2.1, h.2.2.1, h.2.2.2.1, h.2.2.2.2]
  · rintro ⟨desc, dk, dep, attrs, bts⟩ nb hmem
    have hconv : convertV5BlockToTFJSON env (some (V5Block.mk desc dk dep attrs bts)) =
        some (SchemaBlock.mk desc (descKindOf dk) dep
          (attrs.map fun a => (a.name, convertV5AttributeToTFJSON env a))
          (bts.map fun x => (x.typeName, convertV5NestedBlockType env x))) := by
      simp [convertV5BlockToTFJSON]
    refine ⟨_, hconv, ?_⟩
    simp only [SchemaBlock.nestedBlocks]
    exact List.mem_map.mpr ⟨nb, by simpa [V5Block.blockTypes] using hmem, rfl⟩

/-- Witness for C6: the INVALID (0) nesting value converts to single. -/
theorem convertBlock_invalid_nesting_defaults_single_witness :
    (convertV6NestedBlockType decodeEnvFailAll v6NestedInvalid).nestingMode =
      .single :=
  (convertBlock_invalid_nesting_defaults_single decodeEnvFailAll).1
    v6NestedInvalid (by decide)

/-- C8. In either generation, an attribute with non-empty type bytes has
them run through the type-signature decoder: on decode success the decoded
type is stored, on decode failure the attribute type is left absent; and
conversion of the enclosing block continues and succeeds: every attribute of
a block appears, converted, in the (always produced) converted block. -/
theorem attribute_decode_failure_localized (env : DecodeEnv) :
    (∀ a : V6Attribute, a.type ≠ [] →
      (∀ e, decodeCtyTypeFromJSONBytes env a.type = .error e →
        (convertV6AttributeToTFJSON env a).attributeType = none) ∧
      (∀ ty, decodeCtyTypeFromJSONBytes env a.type = .ok ty →
        (convertV6AttributeToTFJSON env a).attributeType = some ty)) ∧
    (∀ b : V6Block, ∀ a ∈ b.attributes,
      ∃ sb, convertV6BlockToTFJSON env (some b) = some sb ∧
        (a.name, convertV6AttributeToTFJSON env a) ∈ sb.attributes) ∧
    (∀ a : V5Attribute, a.type ≠ [] →
      (∀ e, decodeCtyTypeFromJSONBytes env a.type = .error e →
        (convertV5AttributeToTFJSON env a).attributeType = none) ∧
      (∀ ty, decodeCtyTypeFromJSONBytes env a.type = .ok ty →
        (convertV5AttributeToTFJSON env a).attributeType = some ty)) ∧
    (∀ b : V5Block, ∀ a ∈ b.attributes,
      ∃ sb, convertV5BlockToTFJSON env (some b) = some sb ∧
        (a.name, convertV5AttributeToTFJSON env a) ∈ sb.attributes) := by
  refine ⟨?_, ?_, ?_, ?_⟩
  · rintro ⟨nm, desc, dk, req, opt, comp, sens, wo, dep, tbytes, nested⟩ hne
    have hlen : 0 < tbytes.length := by
      simpa [V6Attribute.type, List.length_pos] using hne
    cases nested with
    | none =>
      constructor
      · intro e he
        simp only [V6Attribute.type] at he
        simp [convertV6AttributeToTFJSON, SchemaAttribute.attributeType,
          if_pos hlen, he]
      · intro ty hty
        simp only [V6Attribute.type] at hty
        simp [convertV6AttributeToTFJSON, SchemaAttribute.attributeType,
          if_pos hlen, hty]
    | some o =>
      constructor
      · intro e he
        simp only [V6Attribute.type] at he
        simp [convertV6AttributeToTFJSON, SchemaAttribute.attributeType,
          if_pos hlen, he]
      · intro ty hty
        simp only [V6Attribute.type] at hty
        simp [convertV6AttributeToTFJSON, SchemaAttribute.attributeType,
          if_pos hlen, hty]
  · rintro ⟨desc, dk, dep, attrs, bts⟩ a hmem
    have hconv : convertV6BlockToTFJSON env (some (V6Block.mk desc dk dep attrs bts)) =
        some (SchemaBlock.mk desc (descKindOf dk) dep
          (attrs.map fun a => (a.name, convertV6AttributeToTFJSON env a))
          (bts.map fun x => (x.typeName, convertV6NestedBlockType env x))) := by
      simp [convertV6BlockToTFJSON]
    refine ⟨_, hconv, ?_⟩
    simp only [SchemaBlock.attributes]
    exact List.mem_map.mpr ⟨a, by simpa [V6Block.attributes] using hmem, rfl⟩
  · rintro ⟨nm, desc, dk, req, opt, comp, sens, wo, dep, tbytes⟩ hne
    have hlen : 0 < tbytes.length := by
      simpa [V5Attribute.type, List.length_pos] using hne
    constructor
    · intro e he
      simp only [V5Attribute.type] at he
      simp [convertV5AttributeToTFJSON, SchemaAttribute.attributeType,
        if_pos hlen, he]
    · intro ty hty
      simp only [V5Attribute.type] at hty
      simp [convertV5AttributeToTFJSON, SchemaAttribute.attributeType,
        if_pos hlen, hty]
  · rintro ⟨desc, dk, dep, attrs, bts⟩ a hmem
    have hconv : convertV5BlockToTFJSON env (some (V5Block.mk desc dk dep attrs bts)) =
        some (SchemaBlock.mk desc (descKindOf dk) dep
          (attrs.map fun a => (a.name, convertV5AttributeToTFJSON env a))
          (bts.map fun x => (x.typeName, convertV5NestedBlockType env x))) := by
      simp [convertV5BlockToTFJSON]
    refine ⟨_, hconv, ?_⟩
    simp only [SchemaBlock.attributes]
    exact List.mem_map.mpr ⟨a, by simpa [V5Block.attributes] using hmem, rfl⟩

/-- Witness for C8: an attribute with undecodable, non-empty type bytes
converts with its type absent. -/
theorem attribute_decode_failure_localized_witness :
    (convertV6AttributeToTFJSON decodeEnvFailAll v6AttrBadType).attributeType =
      none :=
  ((attribute_decode_failure_localized decodeEnvFailAll).1 v6AttrBadType
    (by simp [v6AttrBadType, V6Attribute.type])).1 "json unmarshal error" rfl

/-- C3 (counterexample). When both generations fail, `schema()` returns
the fixed message "failed to get provider schema for either V5 or V6
protocols"; it does not name each failure: with failures "v6 rpc failure"
and "v5 rpc failure", neither message occurs in the returned error.  This
refutes the claim that the combined error names each failure. -/
theorem schema_combined_error_not_naming_failures :
    UniversalProviderClient.schema decodeEnvFailAll clientBothFail =
      .error "failed to get provider schema for either V5 or V6 protocols" ∧
    strMentions "failed to get provider schema for either V5 or V6 protocols"
      "v6 rpc failure" = false ∧
    strMentions "failed to get provider schema for either V5 or V6 protocols"
      "v5 rpc failure" = false :=
  ⟨rfl, by decide, by decide⟩

/-- C3 (amended). `schema()` calls generation B (v6) first: a successful
B RPC with successful conversion is returned outright; if the B RPC fails it
retries once against generation A (v5) and, when A succeeds and converts,
returns the A-derived canonical schema without surfacing the B failure; if
both generations fail it returns a fixed combined error naming both
protocols (but not the individual failure messages). -/
theorem schema_b_first_a_fallback (env : DecodeEnv) :
    (∀ (c : UniversalProviderClient) respB ps, c.v6 = some (.ok respB) →
      convertV6ResponseToTFJSON env respB = .ok ps →
      UniversalProviderClient.schema env c = .ok ps) ∧
    (∀ (c : UniversalProviderClient) eB respA ps, c.v6 = some (.error eB) →
      c.v5 = some (.ok respA) →
      convertV5ResponseToTFJSON env respA = .ok ps →
      UniversalProviderClient.schema env c = .ok ps) ∧
    (∀ (c : UniversalProviderClient) eB eA, c.v6 = some (.error eB) →
      c.v5 = some (.error eA) →
      UniversalProviderClient.schema env c =
        .error "failed to get provider schema for either V5 or V6 protocols") := by
  refine ⟨?_, ?_, ?_⟩
  · intro c respB ps h6 hconv
    simp [UniversalProviderClient.schema, h6, hconv]
  · intro c eB respA ps h6 h5 hconv
    simp [UniversalProviderClient.schema, h6, h5, hconv]
  · intro c eB eA h6 h5
    simp [UniversalProviderClient.schema, h6, h5]

/-- Witness for amended C3: a failing v6 RPC with a successful empty v5
response yields the v5-derived canonical schema. -/
theorem schema_b_first_a_fallback_witness :
    UniversalProviderClient.schema decodeEnvFailAll clientFallback =
      .ok ⟨none, none, none, none, none⟩ :=
  (schema_b_first_a_fallback decodeEnvFailAll).2.1 clientFallback
    "v6 rpc failure" (some emptyV5Response) ⟨none, none, none, none, none⟩
    rfl rfl rfl


/-! ### Orchestrator lemmas -/

theorem lookupA_eq_some_mem {κ β : Type} [DecidableEq κ] :
    ∀ {l : List (κ × β)} {k : κ} {v : β}, lookupA l k = some v → (k, v) ∈ l := by
  intro l
  induction l with
  | nil => intro k v h; cases h
  | cons kv rest ih =>
    intro k v h
    rcases kv with ⟨k0, v0⟩
    rw [lookupA] at h
    by_cases hk : k = k0
    · rw [if_pos hk] at h
      cases h
      subst hk
      exact List.mem_cons_self _ _
    · rw [if_neg hk] at h
      exact List.mem_cons_of_mem _ (ih h)

theorem lookupA_isSome_mem {κ β : Type} [DecidableEq κ] {l : List (κ × β)} {k : κ}
    (h : (lookupA l k).isSome = true) : ∃ v, (k, v) ∈ l := by
  rcases hx : lookupA l k with _ | v
  · rw [hx] at h; cases h
  · exact ⟨v, lookupA_eq_some_mem hx⟩

theorem lookupA_cons_self {κ β : Type} [DecidableEq κ] (k : κ) (v : β)
    (l : List (κ × β)) : lookupA ((k, v) :: l) k = some v := by
  simp [lookupA]

theorem GetLatestVersionMatch_ok_mem {α : Type} {cmp : α → α → Int}
    {versions : List α} {cs : Option (List (α → Bool))} {v : α}
    (h : GetLatestVersionMatch cmp versions cs = .ok v) : v ∈ versions := by
  cases versions with
  | nil => simp [GetLatestVersionMatch] at h
  | cons v0 rest =>
    rw [GetLatestVersionMatch] at h
    by_cases hs : isSortedCmp cmp (v0 :: rest) = true
    · rw [if_pos hs] at h
      by_cases he : constraintsEmpty cs = true
      · rw [if_pos he] at h
        have hv : (v0 :: rest).getLast (by simp) = v := by simpa using h
        rw [← hv]
        exact List.getLast_mem _
      · rw [if_neg he] at h
        rcases hscan : lastGoodScan (constraintsCheck cs) (v0 :: rest) none with _ | lg
        · rw [hscan] at h; cases h
        · rw [hscan] at h
          have hlg : lg = v := by simpa using h
          subst hlg
          have heq := lastGoodScan_eq (constraintsCheck cs) (v0 :: rest) none
          rw [hscan] at heq
          rcases hx : ((v0 :: rest).filter (constraintsCheck cs)).getLast? with _ | c
          · rw [hx] at heq; simp [Option.or] at heq
          · rw [hx] at heq
            have : c = lg := by simpa [Option.or] using heq.symm
            subst this
            exact (List.mem_filter.mp (List.mem_of_getLast?_eq_some hx)).1
    · rw [if_neg hs] at h; cases h

theorem latestVersionOf_ok_mem {α : Type} {cmp : α → α → Int} {vers : List α}
    {pc : Option (List (α → Bool))} {v : α}
    (h : latestVersionOf cmp vers pc = .ok v) : v ∈ vers := by
  unfold latestVersionOf at h
  by_cases h0 : (vers.length == 0) = true
  · rw [if_pos h0] at h; cases h
  · rw [if_neg h0] at h
    rcases hg : GetLatestVersionMatch cmp vers pc with e | w
    · rw [hg] at h; cases h
    · rw [hg] at h
      have hw : w = v := by simpa using h
      subst hw
      exact GetLatestVersionMatch_ok_mem hg

theorem GetAvailableVersions_inv (env : ServerEnv) (s : ServerState)
    (q : SVersionsRequest) (hinv : CacheInv env s) :
    CacheInv env (GetAvailableVersions env s q).2 ∧
      ∀ vs, (GetAvailableVersions env s q).1 = .ok vs →
        ∀ v ∈ vs, env.parsesAsVersion v = true := by
  obtain ⟨h1, h2, h3⟩ := hinv
  rcases hc : lookupA s.versionsc q with _ | cached
  · rcases hr : env.registryVersions q with _ | raw
    · simp only [GetAvailableVersions, hc, hr]
      exact ⟨⟨h1, h2, h3⟩, by simp⟩
    · by_cases hall : raw.all env.parsesAsVersion = true
      · simp only [GetAvailableVersions, hc, hr, if_pos hall]
        constructor
        · refine ⟨h1, h2, ?_⟩
          intro kv hkv v hv
          rcases List.mem_cons.mp hkv with heq | hkv'
          · subst heq
            simp only [List.mem_mergeSort] at hv
            exact List.all_eq_true.mp hall v hv
          · exact h3 kv hkv' v hv
        · intro vs hvs v hv
          have hvs' : raw.mergeSort (fun a b => decide (env.cmp a b ≤ 0)) = vs := by
            simpa using hvs
          rw [← hvs'] at hv
          simp only [List.mem_mergeSort] at hv
          exact List.all_eq_true.mp hall v hv
      · simp only [GetAvailableVersions, hc, hr, if_neg hall]
        exact ⟨⟨h1, h2, h3⟩, by simp⟩
  · simp only [GetAvailableVersions, hc]
    refine ⟨⟨h1, h2, h3⟩, ?_⟩
    intro vs hvs v hv
    have : cached = vs := by simpa using hvs
    subst this
    exact h3 (q, cached) (lookupA_eq_some_mem hc) v hv

theorem serverLatestVersionOf_inv (env : ServerEnv) (s : ServerState)
    (r : SRequest) (hinv : CacheInv env s) :
    CacheInv env (serverLatestVersionOf env s r).2 ∧
      ∀ ver, (serverLatestVersionOf env s r).1 = .ok ver →
        env.parsesAsVersion ver = true := by
  obtain ⟨hpres, hvals⟩ := GetAvailableVersions_inv env s ⟨r.nspace, r.name⟩ hinv
  rcases hg : GetAvailableVersions env s ⟨r.nspace, r.name⟩ with ⟨res, s1⟩
  rw [hg] at hpres hvals
  rcases res with e | vers
  · simp only [serverLatestVersionOf, hg]
    exact ⟨hpres, by simp⟩
  · rcases hl : latestVersionOf env.cmp vers (env.parseConstraint r.version)
      with e | latest
    · simp only [serverLatestVersionOf, hg, hl]
      exact ⟨hpres, by simp⟩
    · simp only [serverLatestVersionOf, hg, hl]
      refine ⟨hpres, ?_⟩
      intro ver hver
      have : latest = ver := by simpa using hver
      subst this
      exact hvals vers rfl latest (latestVersionOf_ok_mem hl)

theorem fixVersion_inv (env : ServerEnv) (s : ServerState) (r : SRequest)
    (hinv : CacheInv env s) :
    CacheInv env (fixVersion env s r).2 ∧
      ∀ r1, (fixVersion env s r).1 = .ok r1 →
        env.parsesAsVersion r1.version = true := by
  by_cases hf : fixedVersion env r = true
  · simp only [fixVersion, if_pos hf]
    refine ⟨hinv, ?_⟩
    intro r1 hr1
    have : r = r1 := by simpa using hr1
    subst this
    exact hf
  · obtain ⟨hpres, hok⟩ := serverLatestVersionOf_inv env s r hinv
    rcases hl : serverLatestVersionOf env s r with ⟨res, s1⟩
    rw [hl] at hpres hok
    rcases res with e | ver
    · simp only [fixVersion, if_neg hf, hl]
      exact ⟨hpres, by simp⟩
    · simp only [fixVersion, if_neg hf, hl]
      refine ⟨hpres, ?_⟩
      intro r1 hr1
      have : { r with version := ver } = r1 := by simpa using hr1
      subst this
      exact hok ver rfl

theorem serverGet_inv (env : ServerEnv) (s : ServerState) (r : SRequest)
    (hinv : CacheInv env s) : CacheInv env (serverGet env s r).2 := by
  rcases hc : lookupA s.dlc r with _ | path0
  · obtain ⟨hpres, hok⟩ := fixVersion_inv env s r hinv
    rcases hf : fixVersion env s r with ⟨res, s1⟩
    rw [hf] at hpres hok
    rcases res with e | r1
    · simp only [serverGet, hc, hf]
      exact hpres
    · rcases hd : env.download r1 with _ | path
      · simp only [serverGet, hc, hf, hd]
        exact hpres
      · simp only [serverGet, hc, hf, hd]
        obtain ⟨h1, h2, h3⟩ := hpres
        refine ⟨?_, h2, h3⟩
        intro kv hkv
        rcases List.mem_cons.mp hkv with heq | hkv'
        · subst heq
          exact hok r1 rfl
        · exact h1 kv hkv'
  · simp only [serverGet, hc]
    exact hinv

theorem getSchema_inv (env : ServerEnv) (s : ServerState) (r : SRequest)
    (hinv : CacheInv env s) : CacheInv env (getSchema env s r).2 := by
  rcases hc : lookupA s.sc r with _ | ps0
  · obtain ⟨hpres, hok⟩ := fixVersion_inv env s r hinv
    rcases hf : fixVersion env s r with ⟨res, s1⟩
    rw [hf] at hpres hok
    rcases res with e | r1
    · simp only [getSchema, hc, hf]
      exact hpres
    · have hget := serverGet_inv env s1 r1 hpres
      rcases hg : serverGet env s1 r1 with ⟨res2, s2⟩
      rw [hg] at hget
      rcases res2 with e | u
      · simp only [getSchema, hc, hf, hg]
        exact hget
      · rcases hd : lookupA s2.dlc r1 with _ | path
        · simp only [getSchema, hc, hf, hg, hd]
          exact hget
        · rcases hps : env.fetchSchema path with _ | ps
          · simp only [getSchema, hc, hf, hg, hd, hps]
            exact hget
          · simp only [getSchema, hc, hf, hg, hd, hps]
            obtain ⟨h1, h2, h3⟩ := hget
            refine ⟨h1, ?_, h3⟩
            intro kv hkv
            rcases List.mem_cons.mp hkv with heq | hkv'
            · subst heq
              exact hok r1 rfl
            · exact h2 kv hkv'
  · simp only [getSchema, hc]
    exact hinv

theorem listCategory_inv {β : Type} (proj : ProviderSchema → Option (List (String × β)))
    (env : ServerEnv) (s : ServerState) (r : SRequest)
    (hinv : CacheInv env s) : CacheInv env (listCategory proj env s r).2 := by
  rcases hc : lookupA s.sc r with _ | ps0
  · have hgs := getSchema_inv env s r hinv
    rcases hg : getSchema env s r with ⟨res, s1⟩
    rw [hg] at hgs
    rcases res with e | ps
    · simp only [listCategory, hc, hg]
      exact hgs
    · rcases hc1 : lookupA s1.sc r with _ | ps1 <;>
        simp only [listCategory, hc, hg, hc1] <;> exact hgs
  · simp only [listCategory, hc]
    exact hinv

theorem applyOp_inv (env : ServerEnv) (s : ServerState) (op : ServerOp)
    (hinv : CacheInv env s) : CacheInv env (applyOp env s op) := by
  cases op with
  | get r => exact serverGet_inv env s r hinv
  | schemaOp r => exact getSchema_inv env s r hinv
  | versionsOp q => exact (GetAvailableVersions_inv env s q hinv).1
  | listResourcesOp r => exact listCategory_inv _ env s r hinv
  | listDataSourcesOp r => exact listCategory_inv _ env s r hinv
  | listFunctionsOp r => exact listCategory_inv _ env s r hinv
  | listEphemeralResourcesOp r => exact listCategory_inv _ env s r hinv

theorem runOps_inv (env : ServerEnv) :
    ∀ (ops : List ServerOp) (s : ServerState), CacheInv env s →
      CacheInv env (runOps env s ops)
  | [], _, hinv => hinv
  | op :: rest, s, hinv =>
    runOps_inv env rest (applyOp env s op) (applyOp_inv env s op hinv)

/-- C9. After any sequence of orchestrator operations from the empty
state, every key of the download cache and of the schema cache carries a
version string that parses as an exact version (requests are resolved
before being used as cache keys), and consequently no cache lookup can
decide a hit with an unresolved (constraint-valued) key: a hit on either
cache implies the looked-up request's version parses. -/
theorem cache_keys_resolved_exact (env : ServerEnv) (ops : List ServerOp) :
    (∀ kv ∈ (runOps env initialServerState ops).dlc,
        env.parsesAsVersion kv.1.version = true) ∧
    (∀ kv ∈ (runOps env initialServerState ops).sc,
        env.parsesAsVersion kv.1.version = true) ∧
    (∀ r, (lookupA (runOps env initialServerState ops).dlc r).isSome = true →
        env.parsesAsVersion r.version = true) ∧
    (∀ r, (lookupA (runOps env initialServerState ops).sc r).isSome = true →
        env.parsesAsVersion r.version = true) := by
  have hinv : CacheInv env (runOps env initialServerState ops) :=
    runOps_inv env ops initialServerState
      ⟨by simp [initialServerState], by simp [initialServerState],
       by simp [initialServerState]⟩
  obtain ⟨h1, h2, h3⟩ := hinv
  refine ⟨h1, h2, ?_, ?_⟩
  · intro r hr
    obtain ⟨v, hv⟩ := lookupA_isSome_mem hr
    exact h1 (r, v) hv
  · intro r hr
    obtain ⟨v, hv⟩ := lookupA_isSome_mem hr
    exact h2 (r, v) hv

/-- Witness for C9: after a schema fetch, the download cache holds the
request key, whose version the theorem shows to parse. -/
theorem cache_keys_resolved_exact_witness :
    envC10.parsesAsVersion reqFixed.version = true :=
  (cache_keys_resolved_exact envC10 [.schemaOp reqFixed]).2.2.1 reqFixed (by decide)


/-! ### List accessor lemmas (C10) -/

theorem sorted_names_mergeSort (l : List String) :
    List.Sorted (· ≤ ·) (l.mergeSort (fun a b => decide (a ≤ b))) ∧
      (l.mergeSort (fun a b => decide (a ≤ b))).Perm l := by
  constructor
  · have hp := @List.sorted_mergeSort String (fun a b => decide (a ≤ b))
      (fun a b c h1 h2 => by
        simp only [decide_eq_true_eq] at *
        exact le_trans h1 h2)
      (fun a b => by
        simp only [Bool.or_eq_true, decide_eq_true_eq]
        exact le_total a b)
      l
    exact hp.imp (fun h => by simpa using h)
  · exact List.mergeSort_perm l _

theorem listCategory_ok {β : Type} (proj : ProviderSchema → Option (List (String × β)))
    (env : ServerEnv) (s s1 : ServerState) (r : SRequest) (ps : ProviderSchema)
    (hparse : env.parsesAsVersion r.version = true)
    (hfetch : lookupA s.sc r = some ps ∧ s1 = s ∨
              lookupA s.sc r = none ∧ getSchema env s r = (.ok ps, s1)) :
    listCategory proj env s r = (listNamesOf proj ps, s1) := by
  rcases hfetch with ⟨hc, rfl⟩ | ⟨hc, hg⟩
  · simp [listCategory, hc]
  · have hfix : fixedVersion env r = true := hparse
    have hlook : lookupA s1.sc r = some ps := by
      simp only [getSchema, hc] at hg
      rw [fixVersion, if_pos hfix] at hg
      simp only [] at hg
      rcases hsg : serverGet env s r with ⟨res2, s2⟩
      rw [hsg] at hg
      rcases res2 with e | u
      · simp at hg
      · simp only [] at hg
        rcases hd : lookupA s2.dlc r with _ | path
        · rw [hd] at hg; simp at hg
        · rw [hd] at hg
          simp only [] at hg
          rcases hf : env.fetchSchema path with _ | ps2
          · rw [hf] at hg; simp at hg
          · rw [hf] at hg
            simp only [Prod.mk.injEq, Except.ok.injEq] at hg
            obtain ⟨rfl, hst⟩ := hg
            rw [← hst]
            exact lookupA_cons_self r ps2 s2.sc
    simp [listCategory, hc, hg, hlook]

/-- C10 (amended). For every request whose version field parses as an
exact version and whose canonical schema is cached or fetchable, each list
accessor returns the names of its category sorted in ascending
lexicographic order, and when the category is absent (nil) in the
canonical schema it returns a nil slice together with a nil error. -/
theorem list_accessors_sorted_or_nil (env : ServerEnv) (s s1 : ServerState)
    (r : SRequest) (ps : ProviderSchema)
    (hparse : env.parsesAsVersion r.version = true)
    (hfetch : lookupA s.sc r = some ps ∧ s1 = s ∨
              lookupA s.sc r = none ∧ getSchema env s r = (.ok ps, s1)) :
    (ps.resourceSchemas = none → ListResources env s r = (.ok none, s1)) ∧
    (∀ m, ps.resourceSchemas = some m → ∃ names,
      ListResources env s r = (.ok (some names), s1) ∧
      List.Sorted (· ≤ ·) names ∧ names.Perm (m.map Prod.fst)) ∧
    (ps.dataSourceSchemas = none → ListDataSources env s r = (.ok none, s1)) ∧
    (∀ m, ps.dataSourceSchemas = some m → ∃ names,
      ListDataSources env s r = (.ok (some names), s1) ∧
      List.Sorted (· ≤ ·) names ∧ names.Perm (m.map Prod.fst)) ∧
    (ps.functions = none → ListFunctions env s r = (.ok none, s1)) ∧
    (∀ m, ps.functions = some m → ∃ names,
      ListFunctions env s r = (.ok (some names), s1) ∧
      List.Sorted (· ≤ ·) names ∧ names.Perm (m.map Prod.fst)) ∧
    (ps.ephemeralResourceSchemas = none →
      ListEphemeralResources env s r = (.ok none, s1)) ∧
    (∀ m, ps.ephemeralResourceSchemas = some m → ∃ names,
      ListEphemeralResources env s r = (.ok (some names), s1) ∧
      List.Sorted (· ≤ ·) names ∧ names.Perm (m.map Prod.fst)) := by
  have hres := listCategory_ok (fun p => p.resourceSchemas) env s s1 r ps hparse hfetch
  have hds := listCategory_ok (fun p => p.dataSourceSchemas) env s s1 r ps hparse hfetch
  have hfn := listCategory_ok (fun p => p.functions) env s s1 r ps hparse hfetch
  have heph := listCategory_ok (fun p => p.ephemeralResourceSchemas) env s s1 r ps
    hparse hfetch
  refine ⟨?_, ?_, ?_, ?_, ?_, ?_, ?_, ?_⟩
  · intro hnone
    rw [ListResources, hres, listNamesOf, hnone]
  · intro m hm
    refine ⟨(m.map Prod.fst).mergeSort (fun a b => decide (a ≤ b)), ?_, ?_, ?_⟩
    · rw [ListResources, hres, listNamesOf, hm]
    · exact (sorted_names_mergeSort _).1
    · exact (sorted_names_mergeSort _).2
  · intro hnone
    rw [ListDataSources, hds, listNamesOf, hnone]
  · intro m hm
    refine ⟨(m.map Prod.fst).mergeSort (fun a b => decide (a ≤ b)), ?_, ?_, ?_⟩
    · rw [ListDataSources, hds, listNamesOf, hm]
    · exact (sorted_names_mergeSort _).1
    · exact (sorted_names_mergeSort _).2
  · intro hnone
    rw [ListFunctions, hfn, listNamesOf, hnone]
  · intro m hm
    refine ⟨(m.map Prod.fst).mergeSort (fun a b => decide (a ≤ b)), ?_, ?_, ?_⟩
    · rw [ListFunctions, hfn, listNamesOf, hm]
    · exact (sorted_names_mergeSort _).1
    · exact (sorted_names_mergeSort _).2
  · intro hnone
    rw [ListEphemeralResources, heph, listNamesOf, hnone]
  · intro m hm
    refine ⟨(m.map Prod.fst).mergeSort (fun a b => decide (a ≤ b)), ?_, ?_, ?_⟩
    · rw [ListEphemeralResources, heph, listNamesOf, hm]
    · exact (sorted_names_mergeSort _).1
    · exact (sorted_names_mergeSort _).2

/-- C10 (counterexample). A request with an unresolved (empty) version
field whose schema IS fetchable -- `getSchema` succeeds -- makes
`ListResources` fail: after the successful fetch the accessor re-reads the
schema cache with the original unresolved request, misses (the schema was
cached under the resolved key), and dereferences the nil schema pointer.
This refutes the claim for requests whose version is not an exact
version. -/
theorem list_accessor_unresolved_request_nil_deref :
    (getSchema envC10 stateVersionsOnly reqEmptyVersion).1 = .ok psC10 ∧
    (ListResources envC10 stateVersionsOnly reqEmptyVersion).1 =
      .error .nilSchemaDereference :=
  ⟨rfl, rfl⟩

/-- Witness for amended C10: with the schema cached under an exact-version
request, a nil data-source category yields `nil, nil`. -/
theorem list_accessors_sorted_or_nil_witness :
    ListDataSources envC10 stateSeeded reqFixed = (.ok none, stateSeeded) :=
  (list_accessors_sorted_or_nil envC10 stateSeeded stateSeeded reqFixed psC10
    rfl (Or.inl ⟨rfl, rfl⟩)).2.2.1 rfl

/-! ### Concurrency (C2) -/

/-- C2 (violation). Two concurrent `Get` calls for the same
already-resolved request, interleaved so that both pass the initial
read-locked download-cache check before either acquires the write lock,
perform TWO downloads: the write-locked section downloads unconditionally
-- the download cache is not re-checked after acquiring the write lock --
so the second thread repeats the download after the first releases the
lock.  Both threads finish and the key ends up cached. -/
theorem concurrent_get_double_download :
    (runSchedule concInit
      [false, true, false, false, false, true, true, true]).downloads = 2 ∧
    (runSchedule concInit
      [false, true, false, false, false, true, true, true]).pc0 = .done ∧
    (runSchedule concInit
      [false, true, false, false, false, true, true, true]).pc1 = .done ∧
    (runSchedule concInit
      [false, true, false, false, false, true, true, true]).dlcHas = true := by
  decide

end Tfpluginschema
